import Mathlib

/-!
Shallow embedding of rollcat/zfs-autosnap (Rust) for verification.

The repository contains two parallel implementations of the retention core:
the library (`src/lib.rs` + `src/zfs.rs`) and a self-contained binary
(`src/main.rs`).  Both are embedded here where they differ (the two policy
parsers); the retention engine `check_age` is observably identical in the
two files and is embedded once.

Modelling conventions:
- Rust `String`/`&str` is modelled as `List Char`; byte-level slicing
  (which can panic on a non-boundary index) is modelled explicitly via
  UTF-8 sizes (`Char.utf8Size`).
- `chrono::DateTime<Utc>` is modelled by its Unix timestamp (`Int`,
  seconds); the strftime patterns used by `RetentionPolicy::rules` are
  embedded as the corresponding formatting functions on the timestamp,
  using the standard civil-from-days (proleptic Gregorian) conversion that
  chrono implements.  `%w` is the weekday with Sunday = 0, as in chrono.
- Fallible/panicking code returns `Option`/`Except` (`none` models a
  panic).
- `HashSet` bookkeeping in `check_age` is modelled as a `List` used only
  through membership, and the final `partition` as the two `filter`s it
  is defined to be.
-/

namespace ZfsAutosnap

/-- `SnapshotMetadata` from `src/zfs.rs` (and `src/main.rs`): `name` is the
snapshot identifier `<dataset>@<suffix>`, `created` the UTC creation time
(modelled by its Unix timestamp in seconds), `used` the size in bytes. -/
structure SnapshotMetadata where
  name : List Char
  created : Int
  used : Nat
deriving DecidableEq, Repr

/-- `RetentionPolicy` from `src/lib.rs` / `src/main.rs`: five optional
generation counts.  `yearly` is `Option<i32>` in the source (signed!),
the other four are `Option<u32>`. -/
structure RetentionPolicy where
  yearly : Option Int
  monthly : Option Nat
  weekly : Option Nat
  daily : Option Nat
  hourly : Option Nat
deriving DecidableEq, Repr

/-- `AgeCheckResult`: the keep/delete partition produced by `check_age`. -/
structure AgeCheckResult where
  keep : List SnapshotMetadata
  delete : List SnapshotMetadata
deriving DecidableEq, Repr

/-! ### Calendar conversion (chrono semantics)

`DateTime<Utc>` formatting first splits the timestamp into days since the
epoch and seconds of day (Euclidean division), then converts days to a
proleptic Gregorian civil date (Howard Hinnant's `civil_from_days`, the
algorithm chrono agrees with). -/

/-- Days since 1970-01-01 (floor division, as `div_euclid`). -/
def epochDays (ts : Int) : Int := ts.ediv 86400

/-- Second within the day, in `[0, 86400)`. -/
def secondOfDay (ts : Int) : Nat := (ts.emod 86400).toNat

/-- Proleptic Gregorian civil date `(year, month, day)` from a count of
days since 1970-01-01. -/
def civilFromDays (z0 : Int) : Int × Nat × Nat :=
  let z := z0 + 719468
  let era : Int := z.ediv 146097
  let doe : Nat := (z - era * 146097).toNat
  let yoe : Nat := (doe - doe / 1460 + doe / 36524 - doe / 146096) / 365
  let doy : Nat := doe - (365 * yoe + yoe / 4 - yoe / 100)
  let mp : Nat := (5 * doy + 2) / 153
  let d : Nat := doy - (153 * mp + 2) / 5 + 1
  let m : Nat := if mp < 10 then mp + 3 else mp - 9
  ((yoe : Int) + era * 400 + (if m ≤ 2 then 1 else 0), m, d)

def yearOf (ts : Int) : Int := (civilFromDays (epochDays ts)).1

def monthOf (ts : Int) : Nat := (civilFromDays (epochDays ts)).2.1

def dayOf (ts : Int) : Nat := (civilFromDays (epochDays ts)).2.2

def hourOf (ts : Int) : Nat := secondOfDay ts / 3600

/-- chrono `%w`: weekday with Sunday = 0 (1970-01-01 was a Thursday = 4). -/
def weekdayOf (ts : Int) : Nat := ((epochDays ts + 4).emod 7).toNat

/-- Zero-pad to 2 digits (chrono `%m`, `%d`, `%H`). -/
def pad2 (n : Nat) : String :=
  if n < 10 then "0" ++ toString n else toString n

/-- Zero-pad to 4 digits. -/
def pad4 (n : Nat) : String :=
  if n < 10 then "000" ++ toString n
  else if n < 100 then "00" ++ toString n
  else if n < 1000 then "0" ++ toString n
  else toString n

/-- chrono `%Y`: year zero-padded to four digits, with a sign when
negative. -/
def fmtYear (y : Int) : String :=
  if y < 0 then "-" ++ pad4 (-y).toNat else pad4 y.toNat

/-- The strftime pattern `"%Y-%m-%d %H"` (hourly bucket key). -/
def fmtHourly (ts : Int) : String :=
  fmtYear (yearOf ts) ++ "-" ++ pad2 (monthOf ts) ++ "-" ++ pad2 (dayOf ts)
    ++ " " ++ pad2 (hourOf ts)

/-- The strftime pattern `"%Y-%m-%d"` (daily bucket key). -/
def fmtDaily (ts : Int) : String :=
  fmtYear (yearOf ts) ++ "-" ++ pad2 (monthOf ts) ++ "-" ++ pad2 (dayOf ts)

/-- The strftime pattern `"%Y w%w"` (weekly bucket key: year plus weekday
index 0-6 — NOT a calendar week number; this mirrors the source). -/
def fmtWeekly (ts : Int) : String :=
  fmtYear (yearOf ts) ++ " w" ++ toString (weekdayOf ts)

/-- The strftime pattern `"%Y-%m"` (monthly bucket key). -/
def fmtMonthly (ts : Int) : String :=
  fmtYear (yearOf ts) ++ "-" ++ pad2 (monthOf ts)

/-- The strftime pattern `"%Y"` (yearly bucket key). -/
def fmtYearly (ts : Int) : String :=
  fmtYear (yearOf ts)

/-- `RetentionPolicy::rules` (`src/lib.rs:31-47`): the five
(pattern, count) pairs, in source order.  The yearly `i32` count is cast
`as u32`, i.e. reduced modulo `2^32` (two's complement
reinterpretation). -/
def RetentionPolicy.rules (p : RetentionPolicy) :
    List ((Int → String) × Option Nat) :=
  [(fmtHourly, p.hourly),
   (fmtDaily, p.daily),
   (fmtWeekly, p.weekly),
   (fmtMonthly, p.monthly),
   (fmtYearly, p.yearly.map (fun y => (y.emod 4294967296).toNat))]

/-! ### The retention engine `check_age` -/

/-- Descending order on creation time: the source sorts ascending by the
key `-created.timestamp()`, i.e. newest first. -/
def createdGe (a b : SnapshotMetadata) : Prop := b.created ≤ a.created

instance : DecidableRel createdGe :=
  fun a b => inferInstanceAs (Decidable (b.created ≤ a.created))

instance : IsTotal SnapshotMetadata createdGe :=
  ⟨fun a b => (le_total b.created a.created).imp id id⟩

instance : IsTrans SnapshotMetadata createdGe :=
  ⟨fun _ _ _ hab hbc => le_trans hbc hab⟩

/-- The sort `snapshots.sort_unstable_by_key(|s| -s.created.timestamp())`:
a sorted-descending permutation of the input.  (The source's unstable
sort is a deterministic algorithm; the model fixes one deterministic
sorted rearrangement.) -/
def sortDesc (l : List SnapshotMetadata) : List SnapshotMetadata :=
  List.insertionSort createdGe l

/-- The inner per-rule loop of `check_age` (`src/lib.rs:57-77`): scan the
sorted snapshots, keeping a snapshot whenever its bucket key differs from
`last` (the key of the most recently kept snapshot), and stop the scan as
soon as `kept` reaches `number_to_keep`. -/
def ruleScan (key : SnapshotMetadata → String) (number_to_keep : Nat) :
    List SnapshotMetadata → Option String → Nat → List SnapshotMetadata
  | [], _, _ => []
  | s :: rest, last, kept =>
    let period := key s
    if last = some period then
      ruleScan key number_to_keep rest last kept
    else if kept + 1 = number_to_keep then
      [s]
    else
      s :: ruleScan key number_to_keep rest (some period) (kept + 1)

/-- The outer rule loop of `check_age` (`src/lib.rs:54-81`): a rule with
count `Some(0)` or `None` contributes nothing; a rule with count
`Some(n) (n > 0)` contributes its scan over the sorted list.  `acc`
accumulates the `to_keep` set (modelled as a list used via
membership). -/
def keepLoop (sorted : List SnapshotMetadata) :
    List ((Int → String) × Option Nat) → List SnapshotMetadata →
      List SnapshotMetadata
  | [], acc => acc
  | (pattern, rule) :: rest, acc =>
    match rule with
    | some 0 => keepLoop sorted rest acc
    | some (n + 1) =>
      keepLoop sorted rest
        (acc ++ ruleScan (fun s => pattern s.created) (n + 1) sorted none 0)
    | none => keepLoop sorted rest acc

/-- `RetentionPolicy::check_age` (`src/lib.rs:49-90`; the `check_age` in
`src/main.rs:91-135` is observably the same function): sort newest first,
accumulate the `to_keep` set over the five rules, then partition the
sorted list by membership in `to_keep`. -/
def check_age (p : RetentionPolicy) (snapshots : List SnapshotMetadata) :
    AgeCheckResult :=
  let sorted := sortDesc snapshots
  let to_keep := keepLoop sorted p.rules []
  { keep := sorted.filter (fun s => decide (s ∈ to_keep)),
    delete := sorted.filter (fun s => !decide (s ∈ to_keep)) }

example : civilFromDays 0 = (1970, 1, 1) := by decide
example : civilFromDays 18628 = (2021, 1, 1) := by decide
example : weekdayOf (18628 * 86400) = 5 := by decide
example : fmtWeekly (18642 * 86400) = "2021 w5" := by decide
example : fmtHourly 1610668800 = "2021-01-15 00" := by decide

/-! ### The policy parser of `src/lib.rs` (`impl FromStr for RetentionPolicy`)

The source iterates `x.chars().enumerate()` and, at each marker letter,
calls `digits_from(i + 1, x)` — slicing the string at the *byte* index
`i + 1`, where `i` is the *character* index delivered by `enumerate()`.
Byte slicing panics when the index is not a UTF-8 character boundary, so
the embedding models the slice explicitly over UTF-8 sizes; `none` is a
panic. -/

/-- Rust `&s[b..]` on a string modelled as its character list: `none`
when byte index `b` is out of range or not a character boundary (a
panic in Rust). -/
def byteSlice : List Char → Nat → Option (List Char)
  | l, 0 => some l
  | [], _ + 1 => none
  | c :: rest, b + 1 =>
    if c.utf8Size ≤ b + 1 then byteSlice rest (b + 1 - c.utf8Size) else none

/-- `digits_from` (`src/lib.rs:97-101`): slice at byte index `start`,
then take the leading ASCII digits. -/
def digits_from (start : Nat) (s : List Char) : Option (List Char) :=
  (byteSlice s start).map (fun t => t.takeWhile (fun c => c.isDigit))

/-- `chars().enumerate()` starting at index `i`. -/
def enumChars : Nat → List Char → List (Nat × Char)
  | _, [] => []
  | i, c :: cs => (i, c) :: enumChars (i + 1) cs

/-- Numeric value of a digit string (the digits are ASCII by
construction). -/
def natOfDigits (ds : List Char) : Nat :=
  ds.foldl (fun a c => a * 10 + (c.toNat - 48)) 0

/-- Rust `str::parse::<u32>` on a string of ASCII digits: fails on the
empty string and on overflow. -/
def parseU32 (ds : List Char) : Option Nat :=
  if ds.isEmpty then none
  else if natOfDigits ds < 4294967296 then some (natOfDigits ds) else none

/-- Rust `str::parse::<i32>` on a string of ASCII digits (no sign can
occur): fails on the empty string and on overflow past `i32::MAX`. -/
def parseI32 (ds : List Char) : Option Int :=
  if ds.isEmpty then none
  else if natOfDigits ds < 2147483648 then some (natOfDigits ds : Nat) else none

/-- The `while let Some((i, ch)) = chars.next()` loop of
`src/lib.rs:109-119`.  Each marker letter assigns its field from
`digits_from(i + 1, x).parse().ok()`; `none` models the byte-slicing
panic inside `digits_from`. -/
def fromStrGo (x : List Char) :
    List (Nat × Char) → RetentionPolicy → Option RetentionPolicy
  | [], policy => some policy
  | (i, ch) :: rest, policy =>
    if ch = 'y' then
      (digits_from (i + 1) x).bind
        (fun ds => fromStrGo x rest { policy with yearly := parseI32 ds })
    else if ch = 'm' then
      (digits_from (i + 1) x).bind
        (fun ds => fromStrGo x rest { policy with monthly := parseU32 ds })
    else if ch = 'w' then
      (digits_from (i + 1) x).bind
        (fun ds => fromStrGo x rest { policy with weekly := parseU32 ds })
    else if ch = 'd' then
      (digits_from (i + 1) x).bind
        (fun ds => fromStrGo x rest { policy with daily := parseU32 ds })
    else if ch = 'h' then
      (digits_from (i + 1) x).bind
        (fun ds => fromStrGo x rest { policy with hourly := parseU32 ds })
    else fromStrGo x rest policy

/-- `RetentionPolicy::from_str` of `src/lib.rs:96-122`.  `none` models a
panic (the function's declared error type is never produced). -/
def from_str (x : List Char) : Option RetentionPolicy :=
  fromStrGo x (enumChars 0 x) ⟨none, none, none, none, none⟩

example : from_str (String.data "h24d30w8m6y1") =
    some ⟨some 1, some 6, some 8, some 30, some 24⟩ := by decide
example : from_str (String.data "y1d88a1b2c3m5") =
    some ⟨some 1, some 5, none, some 88, none⟩ := by decide
example : from_str (String.data "") =
    some ⟨none, none, none, none, none⟩ := by decide
example : from_str (String.data "y") =
    some ⟨none, none, none, none, none⟩ := by decide

/-! ### The policy parser of `src/main.rs` (regex `[hdwmy][0-9]+`)

`src/main.rs:48-75` instead scans the string with
`Regex::new("[hdwmy][0-9]+").captures_iter`, assigning each matched
marker's field from `value.parse().unwrap()` — which panics on an
out-of-range count (`none` in the model). -/

def isMarker (c : Char) : Prop := c = 'h' ∨ c = 'd' ∨ c = 'w' ∨ c = 'm' ∨ c = 'y'

instance : DecidablePred isMarker := fun c => by
  unfold isMarker; infer_instance

/-- Leftmost-first, non-overlapping matches of `[hdwmy][0-9]+`, as
(marker, digits) pairs.  The `skipping` flag consumes the digit run of
the previous match before the scan resumes. -/
def reScan : Bool → List Char → List (Char × List Char)
  | _, [] => []
  | skipping, c :: rest =>
    if skipping ∧ c.isDigit then reScan true rest
    else if isMarker c ∧ (rest.head?.elim false Char.isDigit) then
      (c, rest.takeWhile Char.isDigit) :: reScan true rest
    else reScan false rest

/-- The `for cap in RE.captures_iter(x)` loop of `src/main.rs:59-73`:
assign each matched marker's field; `value.parse().unwrap()` panics
(`none`) when the digits overflow the field's integer type. -/
def applyMatches :
    List (Char × List Char) → RetentionPolicy → Option RetentionPolicy
  | [], rp => some rp
  | (c, ds) :: rest, rp =>
    if c = 'y' then
      match parseI32 ds with
      | none => none
      | some v => applyMatches rest { rp with yearly := some v }
    else if c = 'm' then
      match parseU32 ds with
      | none => none
      | some v => applyMatches rest { rp with monthly := some v }
    else if c = 'w' then
      match parseU32 ds with
      | none => none
      | some v => applyMatches rest { rp with weekly := some v }
    else if c = 'd' then
      match parseU32 ds with
      | none => none
      | some v => applyMatches rest { rp with daily := some v }
    else if c = 'h' then
      match parseU32 ds with
      | none => none
      | some v => applyMatches rest { rp with hourly := some v }
    else none

/-- `RetentionPolicy::from_str` of `src/main.rs:48-75` (the regex-based
parser used by the binary, in particular by `gc_find`). -/
def from_str_main (x : List Char) : Option RetentionPolicy :=
  applyMatches (reScan false x) ⟨none, none, none, none, none⟩

example : from_str_main (String.data "h24d30w8m6y1") =
    some ⟨some 1, some 6, some 8, some 30, some 24⟩ := by decide
example : from_str_main (String.data "y1d88a1b2c3m5") =
    some ⟨some 1, some 5, none, some 88, none⟩ := by decide
example : from_str_main (String.data "y1y") =
    some ⟨some 1, none, none, none, none⟩ := by decide

/-! ### The destroy guard (`src/zfs.rs:98-107`) -/

/-- A destructive invocation of the external `zfs` tool. -/
inductive ZfsCall where
  | destroy (name : List Char)
deriving DecidableEq, Repr

/-- The error message of the guard in `destroy_snapshot`. -/
def notASnapshotMsg : List Char :=
  String.data "Tried to destroy something that is not a snapshot"

/-- `destroy_snapshot` (`src/zfs.rs:98-107`): refuse (with a distinct
error) any name lacking the `@` separator; otherwise issue
`zfs destroy <name>`.  The `ok` value is the destructive call issued
(the external process's own outcome is outside the model). -/
def destroy_snapshot (snapshot : SnapshotMetadata) :
    Except (List Char) ZfsCall :=
  if '@' ∈ snapshot.name then Except.ok (ZfsCall.destroy snapshot.name)
  else Except.error notASnapshotMsg

/-! ### The aggregator `gc_find` (`src/main.rs:275-298`) -/

/-- `snapshot.name.split("@").next()`: the prefix of the identifier
before its first `@` (the whole name when there is no `@`). -/
def datasetOf (name : List Char) : List Char :=
  name.takeWhile (fun c => c ≠ '@')

/-- One step of the `HashMap::entry(..).or_insert(vec![]).push(..)`
grouping: append `s` to the entry for `k`, creating it if absent. -/
def addToGroup (m : List (List Char × List SnapshotMetadata))
    (k : List Char) (s : SnapshotMetadata) :
    List (List Char × List SnapshotMetadata) :=
  match m with
  | [] => [(k, [s])]
  | (k', g) :: rest =>
    if k' = k then (k', g ++ [s]) :: rest else (k', g) :: addToGroup rest k s

/-- The grouping loop of `gc_find`: snapshots bucketed by
`datasetOf` (association list; entries in first-encounter order —
`HashMap` iteration order is arbitrary in the source, and no claim here
depends on it). -/
def groupByDataset (snapshots : List SnapshotMetadata) :
    List (List Char × List SnapshotMetadata) :=
  snapshots.foldl (fun m s => addToGroup m (datasetOf s.name) s) []

/-- The per-group loop of `gc_find`: fetch the dataset's policy property
(`props`, modelling `ZFS::get_property`; `none` is a lookup failure),
parse it with the binary's parser, run `check_age`, and extend the
accumulated keep/delete lists.  Any failure aborts the whole
aggregation. -/
def gcLoop (props : List Char → Option (List Char)) :
    List (List Char × List SnapshotMetadata) →
      Option (List SnapshotMetadata × List SnapshotMetadata)
  | [] => some ([], [])
  | (k, g) :: rest =>
    (props k).bind (fun pstr =>
      (from_str_main pstr).bind (fun pol =>
        let check := check_age pol g
        (gcLoop props rest).map
          (fun kd => (check.keep ++ kd.1, check.delete ++ kd.2))))

/-- `gc_find` (`src/main.rs:275-298`), with the external listing already
performed: group the snapshots by dataset, resolve and apply each
dataset's policy, and aggregate.  `none` models the `?`-propagated
failure. -/
def gc_find (props : List Char → Option (List Char))
    (snapshots : List SnapshotMetadata) : Option AgeCheckResult :=
  (gcLoop props (groupByDataset snapshots)).map (fun kd => ⟨kd.1, kd.2⟩)

/-! ## Lemmas about the engine -/

lemma sortDesc_perm (l : List SnapshotMetadata) :
    List.Perm (sortDesc l) l :=
  List.perm_insertionSort createdGe l

lemma sortDesc_sorted (l : List SnapshotMetadata) :
    List.Pairwise createdGe (sortDesc l) :=
  List.sorted_insertionSort createdGe l

lemma check_age_keep_eq (p : RetentionPolicy) (snaps : List SnapshotMetadata) :
    (check_age p snaps).keep =
      (sortDesc snaps).filter
        (fun s => decide (s ∈ keepLoop (sortDesc snaps) p.rules [])) := rfl

lemma check_age_delete_eq (p : RetentionPolicy) (snaps : List SnapshotMetadata) :
    (check_age p snaps).delete =
      (sortDesc snaps).filter
        (fun s => !decide (s ∈ keepLoop (sortDesc snaps) p.rules [])) := rfl

lemma mem_of_mem_keep {p : RetentionPolicy} {snaps : List SnapshotMetadata}
    {s : SnapshotMetadata} (h : s ∈ (check_age p snaps).keep) : s ∈ snaps := by
  rw [check_age_keep_eq] at h
  exact (sortDesc_perm snaps).mem_iff.mp (List.mem_of_mem_filter h)

lemma mem_of_mem_delete {p : RetentionPolicy} {snaps : List SnapshotMetadata}
    {s : SnapshotMetadata} (h : s ∈ (check_age p snaps).delete) : s ∈ snaps := by
  rw [check_age_delete_eq] at h
  exact (sortDesc_perm snaps).mem_iff.mp (List.mem_of_mem_filter h)

/-- Claim C1: for every snapshot list `S` and policy `P`, `check_age`
partitions `S` exhaustively and disjointly: the concatenation of the
`keep` and `delete` lists is a permutation of `S` (so every record of
`S`, with multiplicity, lands in the output), and no record is in both
lists. -/
theorem claim_C1_partition (p : RetentionPolicy) (snaps : List SnapshotMetadata) :
    List.Perm ((check_age p snaps).keep ++ (check_age p snaps).delete) snaps ∧
      ∀ s, s ∈ (check_age p snaps).keep → s ∉ (check_age p snaps).delete := by
  constructor
  · rw [check_age_keep_eq, check_age_delete_eq]
    exact (List.filter_append_perm _ (sortDesc snaps)).trans (sortDesc_perm snaps)
  · intro s hk hd
    rw [check_age_keep_eq] at hk
    rw [check_age_delete_eq] at hd
    have h1 := (List.mem_filter.mp hk).2
    have h2 := (List.mem_filter.mp hd).2
    simp at h1 h2
    exact h2 h1

/-- Claim C10: both output lists of `check_age` are ordered by creation
time, newest first (non-strictly, so ties are adjacent): they are
filters of the descending-sorted working list. -/
theorem claim_C10_outputs_sorted (p : RetentionPolicy)
    (snaps : List SnapshotMetadata) :
    List.Pairwise createdGe (check_age p snaps).keep ∧
      List.Pairwise createdGe (check_age p snaps).delete := by
  constructor
  · rw [check_age_keep_eq]
    exact List.Pairwise.sublist (List.filter_sublist _) (sortDesc_sorted snaps)
  · rw [check_age_delete_eq]
    exact List.Pairwise.sublist (List.filter_sublist _) (sortDesc_sorted snaps)

/-! ### Characterizing the per-rule selection

`runHeads key n last l` is the declarative counterpart of the per-rule
scan: it returns the first (newest) element of each of the first `n`
maximal runs of consecutive equal bucket keys in `l` (continuing a run
whose key is `last`). -/

def runHeads (key : SnapshotMetadata → String) :
    Nat → Option String → List SnapshotMetadata → List SnapshotMetadata
  | _, _, [] => []
  | 0, last, s :: rest =>
    if last = some (key s) then runHeads key 0 last rest else []
  | m + 1, last, s :: rest =>
    if last = some (key s) then runHeads key (m + 1) last rest
    else s :: runHeads key m (some (key s)) rest

lemma runHeads_nil (key : SnapshotMetadata → String) (n : Nat)
    (last : Option String) : runHeads key n last [] = [] := by
  cases n <;> rfl

lemma runHeads_zero (key : SnapshotMetadata → String) :
    ∀ (l : List SnapshotMetadata) (last : Option String),
      runHeads key 0 last l = []
  | [], _ => rfl
  | s :: rest, last => by
    rw [runHeads]
    split
    · exact runHeads_zero key rest last
    · rfl

/-- The scan of the source (counting up to `number_to_keep` and breaking)
computes exactly the heads of the first `n - kept` remaining runs. -/
lemma ruleScan_eq_runHeads (key : SnapshotMetadata → String) (n : Nat) :
    ∀ (l : List SnapshotMetadata) (last : Option String) (kept : Nat),
      kept < n → ruleScan key n l last kept = runHeads key (n - kept) last l
  | [], _, _, _ => by rw [runHeads_nil]; rfl
  | s :: rest, last, kept, h => by
    obtain ⟨m, hm⟩ : ∃ m, n - kept = m + 1 := ⟨n - kept - 1, by omega⟩
    rw [ruleScan, hm, runHeads]
    by_cases hl : last = some (key s)
    · rw [if_pos hl, if_pos hl]
      rw [ruleScan_eq_runHeads key n rest last kept h, hm]
    · rw [if_neg hl, if_neg hl]
      by_cases hk : kept + 1 = n
      · have hm0 : m = 0 := by omega
        subst hm0
        simp only [hk, if_true, runHeads_zero]
      · simp only [hk, if_false]
        have hlt : kept + 1 < n := by omega
        rw [ruleScan_eq_runHeads key n rest (some (key s)) (kept + 1) hlt]
        have : n - (kept + 1) = m := by omega
        rw [this]

/-- Keeping more generations per rule can only add kept snapshots. -/
lemma runHeads_mono (key : SnapshotMetadata → String) :
    ∀ (l : List SnapshotMetadata) (n n' : Nat) (last : Option String),
      n ≤ n' → ∀ s, s ∈ runHeads key n last l → s ∈ runHeads key n' last l
  | [], _, _, _, _, _ => by
    intro h
    rw [runHeads_nil] at h
    exact absurd h (List.not_mem_nil _)
  | t :: rest, n, n', last, hle, s => by
    intro h
    match n, n', hle with
    | 0, _, _ =>
      rw [runHeads_zero] at h
      exact absurd h (List.not_mem_nil s)
    | m + 1, m' + 1, hle =>
      rw [runHeads] at h ⊢
      by_cases hl : last = some (key t)
      · rw [if_pos hl] at h ⊢
        exact runHeads_mono key rest (m + 1) (m' + 1) last hle s h
      · rw [if_neg hl] at h ⊢
        rcases List.mem_cons.mp h with h | h
        · exact List.mem_cons.mpr (Or.inl h)
        · exact List.mem_cons.mpr
            (Or.inr (runHeads_mono key rest m m' (some (key t)) (by omega) s h))

/-- Membership in the accumulated `to_keep` set: a snapshot is kept iff it
was already in the accumulator or some rule with a positive count accepts
it during its scan. -/
lemma mem_keepLoop (sorted : List SnapshotMetadata) :
    ∀ (rs : List ((Int → String) × Option Nat)) (acc : List SnapshotMetadata)
      (s : SnapshotMetadata),
      s ∈ keepLoop sorted rs acc ↔
        s ∈ acc ∨ ∃ pr ∈ rs, ∃ n, pr.2 = some (n + 1) ∧
          s ∈ ruleScan (fun t => pr.1 t.created) (n + 1) sorted none 0
  | [], acc, s => by simp [keepLoop]
  | (pat, rule) :: rest, acc, s => by
    match rule with
    | none =>
      rw [keepLoop, mem_keepLoop sorted rest acc s]
      simp
    | some 0 =>
      rw [keepLoop, mem_keepLoop sorted rest acc s]
      constructor
      · rintro (h | h)
        · exact Or.inl h
        · exact Or.inr (by
            obtain ⟨pr, hpr, n, hn, hs⟩ := h
            exact ⟨pr, List.mem_cons_of_mem _ hpr, n, hn, hs⟩)
      · rintro (h | ⟨pr, hpr, n, hn, hs⟩)
        · exact Or.inl h
        · rcases List.mem_cons.mp hpr with rfl | hpr
          · simp at hn
          · exact Or.inr ⟨pr, hpr, n, hn, hs⟩
    | some (n + 1) =>
      rw [keepLoop, mem_keepLoop sorted rest _ s]
      constructor
      · rintro (h | h)
        · rcases List.mem_append.mp h with h | h
          · exact Or.inl h
          · exact Or.inr ⟨(pat, some (n + 1)), List.mem_cons_self _ _, n, rfl, h⟩
        · obtain ⟨pr, hpr, m, hm, hs⟩ := h
          exact Or.inr ⟨pr, List.mem_cons_of_mem _ hpr, m, hm, hs⟩
      · rintro (h | ⟨pr, hpr, m, hm, hs⟩)
        · exact Or.inl (List.mem_append.mpr (Or.inl h))
        · rcases List.mem_cons.mp hpr with rfl | hpr
          · simp only at hm
            have : m = n := by
              have := Option.some.inj hm
              omega
            subst this
            exact Or.inl (List.mem_append.mpr (Or.inr hs))
          · exact Or.inr ⟨pr, hpr, m, hm, hs⟩

/-- Effective per-rule count: `None` and `Some(0)` both mean "skip". -/
def effCount : Option Nat → Nat
  | none => 0
  | some n => n

/-- Effective yearly count, after the source's `i32 → u32` cast. -/
def effYearly (p : RetentionPolicy) : Nat :=
  effCount (p.yearly.map (fun y => (y.emod 4294967296).toNat))

lemma scan_opt_iff (key : SnapshotMetadata → String) (o : Option Nat)
    (l : List SnapshotMetadata) (s : SnapshotMetadata) :
    (∃ n, o = some (n + 1) ∧ s ∈ ruleScan key (n + 1) l none 0) ↔
      0 < effCount o ∧ s ∈ runHeads key (effCount o) none l := by
  match o with
  | none => simp [effCount]
  | some 0 => simp [effCount]
  | some (k + 1) =>
    simp only [effCount, Option.some.injEq]
    constructor
    · rintro ⟨n, hn, hs⟩
      have hnk : n = k := by omega
      rw [hnk] at hs
      rw [ruleScan_eq_runHeads key (k + 1) l none 0 (Nat.succ_pos k)] at hs
      exact ⟨Nat.succ_pos k, hs⟩
    · rintro ⟨-, hs⟩
      refine ⟨k, rfl, ?_⟩
      rw [ruleScan_eq_runHeads key (k + 1) l none 0 (Nat.succ_pos k)]
      exact hs

/-- The central characterization of the keep set: a snapshot is kept iff
it occurs in the sorted working list and some rule with positive
effective count selects it as the head of one of its first `N` maximal
runs of equal bucket keys (scanning newest first). -/
lemma mem_keep_iff (p : RetentionPolicy) (snaps : List SnapshotMetadata)
    (s : SnapshotMetadata) :
    s ∈ (check_age p snaps).keep ↔
      s ∈ sortDesc snaps ∧
        ((0 < effCount p.hourly ∧
            s ∈ runHeads (fun t => fmtHourly t.created) (effCount p.hourly)
              none (sortDesc snaps)) ∨
         (0 < effCount p.daily ∧
            s ∈ runHeads (fun t => fmtDaily t.created) (effCount p.daily)
              none (sortDesc snaps)) ∨
         (0 < effCount p.weekly ∧
            s ∈ runHeads (fun t => fmtWeekly t.created) (effCount p.weekly)
              none (sortDesc snaps)) ∨
         (0 < effCount p.monthly ∧
            s ∈ runHeads (fun t => fmtMonthly t.created) (effCount p.monthly)
              none (sortDesc snaps)) ∨
         (0 < effYearly p ∧
            s ∈ runHeads (fun t => fmtYearly t.created) (effYearly p)
              none (sortDesc snaps))) := by
  rw [check_age_keep_eq, List.mem_filter]
  simp only [decide_eq_true_eq, effYearly]
  constructor
  · rintro ⟨hmem, hkeep⟩
    refine ⟨hmem, ?_⟩
    rcases (mem_keepLoop (sortDesc snaps) p.rules [] s).mp hkeep with h | h
    · exact absurd h (List.not_mem_nil s)
    · obtain ⟨pr, hpr, hex⟩ := h
      simp only [RetentionPolicy.rules, List.mem_cons, List.mem_singleton,
        List.not_mem_nil, or_false] at hpr
      rcases hpr with rfl | rfl | rfl | rfl | rfl
      · exact Or.inl ((scan_opt_iff _ p.hourly _ s).mp hex)
      · exact Or.inr (Or.inl ((scan_opt_iff _ p.daily _ s).mp hex))
      · exact Or.inr (Or.inr (Or.inl ((scan_opt_iff _ p.weekly _ s).mp hex)))
      · exact Or.inr (Or.inr (Or.inr (Or.inl
          ((scan_opt_iff _ p.monthly _ s).mp hex))))
      · exact Or.inr (Or.inr (Or.inr (Or.inr
          ((scan_opt_iff _ (p.yearly.map (fun y => (y.emod 4294967296).toNat))
            _ s).mp hex))))
  · rintro ⟨hmem, hsel⟩
    refine ⟨hmem, (mem_keepLoop (sortDesc snaps) p.rules [] s).mpr (Or.inr ?_)⟩
    rcases hsel with h | h | h | h | h
    · exact ⟨(fmtHourly, p.hourly), by simp [RetentionPolicy.rules],
        (scan_opt_iff _ p.hourly _ s).mpr h⟩
    · exact ⟨(fmtDaily, p.daily), by simp [RetentionPolicy.rules],
        (scan_opt_iff _ p.daily _ s).mpr h⟩
    · exact ⟨(fmtWeekly, p.weekly), by simp [RetentionPolicy.rules],
        (scan_opt_iff _ p.weekly _ s).mpr h⟩
    · exact ⟨(fmtMonthly, p.monthly), by simp [RetentionPolicy.rules],
        (scan_opt_iff _ p.monthly _ s).mpr h⟩
    · exact ⟨(fmtYearly, p.yearly.map (fun y => (y.emod 4294967296).toNat)),
        by simp [RetentionPolicy.rules],
        (scan_opt_iff _ (p.yearly.map (fun y => (y.emod 4294967296).toNat))
          _ s).mpr h⟩

/-! ## Claims C2 and C6 -/

/-- Claim C2, counterexample.  Three snapshots of one dataset, created on
2021-01-15 (a Friday), 2021-01-11 (a Monday) and 2021-01-08 (a Friday),
under policy `weekly = 3`.  The weekly bucket key is year + weekday, so
the two Fridays share one bucket whose most recent representative is the
2021-01-15 snapshot; under the claim the 2021-01-08 snapshot must not be
kept.  Yet `check_age` keeps all three: the scan only compares each key
against the key of the most recently accepted record, and the weekly key
is not monotone along the time-sorted list, so a bucket can be accepted
twice. -/
theorem claim_C2_counterexample :
    (check_age ⟨none, none, some 3, none, none⟩
        [⟨String.data "a@3", 1610064000, 0⟩, ⟨String.data "a@1", 1610668800, 0⟩,
         ⟨String.data "a@2", 1610323200, 0⟩]).keep =
      [⟨String.data "a@1", 1610668800, 0⟩, ⟨String.data "a@2", 1610323200, 0⟩,
       ⟨String.data "a@3", 1610064000, 0⟩] ∧
    fmtWeekly 1610064000 = fmtWeekly 1610668800 ∧
    (1610064000 : Int) < 1610668800 ∧
    (⟨String.data "a@3", 1610064000, 0⟩ : SnapshotMetadata) ≠
      ⟨String.data "a@1", 1610668800, 0⟩ := by
  refine ⟨by decide, by decide, by decide, by decide⟩

/-- Claim C2, amended: for each rule whose effective count is `N > 0`
(counts `None` and `Some(0)` deactivate a rule; the yearly `i32` count is
first cast to `u32`), the keep set contains exactly the newest record of
each of the first `N` *maximal runs of consecutive equal bucket keys* in
the descending-sorted snapshot list, the keep set being the union of
these contributions over the five rules.  For the hourly, daily, monthly
and yearly rules the bucket key is monotone along the sorted order, so
runs coincide with the `N` most-recent distinct buckets; for the weekly
rule (bucket key: year plus weekday-index 0-6) the same bucket can recur
in several runs and the claimed "distinct buckets" reading fails
(see the counterexample). -/
theorem claim_C2_amended (p : RetentionPolicy) (snaps : List SnapshotMetadata)
    (s : SnapshotMetadata) :
    s ∈ (check_age p snaps).keep ↔
      s ∈ sortDesc snaps ∧
        ((0 < effCount p.hourly ∧
            s ∈ runHeads (fun t => fmtHourly t.created) (effCount p.hourly)
              none (sortDesc snaps)) ∨
         (0 < effCount p.daily ∧
            s ∈ runHeads (fun t => fmtDaily t.created) (effCount p.daily)
              none (sortDesc snaps)) ∨
         (0 < effCount p.weekly ∧
            s ∈ runHeads (fun t => fmtWeekly t.created) (effCount p.weekly)
              none (sortDesc snaps)) ∨
         (0 < effCount p.monthly ∧
            s ∈ runHeads (fun t => fmtMonthly t.created) (effCount p.monthly)
              none (sortDesc snaps)) ∨
         (0 < effYearly p ∧
            s ∈ runHeads (fun t => fmtYearly t.created) (effYearly p)
              none (sortDesc snaps))) :=
  mem_keep_iff p snaps s

/-- Claim C6, counterexample.  The source keeps the yearly count as
`Option<i32>` and casts it `as u32`.  Increasing the yearly count from
`-1` to `0` therefore shrinks its effective value from `u32::MAX` to `0`,
moving the only snapshot from `keep` to `delete` — the opposite of the
claimed monotonicity. -/
theorem claim_C6_counterexample :
    (-1 : Int) < 0 ∧
    (check_age ⟨some (-1), none, none, none, none⟩
        [⟨String.data "a@1", 0, 0⟩]).keep = [⟨String.data "a@1", 0, 0⟩] ∧
    (check_age ⟨some 0, none, none, none, none⟩
        [⟨String.data "a@1", 0, 0⟩]).keep = [] ∧
    (⟨String.data "a@1", 0, 0⟩ : SnapshotMetadata) ∈
      (check_age ⟨some 0, none, none, none, none⟩
        [⟨String.data "a@1", 0, 0⟩]).delete := by
  refine ⟨by decide, by decide, by decide, by decide⟩

/-- Claim C6, amended: monotonicity holds for the *effective* rule counts
(unset or zero means "skip"; the yearly `i32` is cast to `u32` first —
within the documented non-negative range this agrees with the plain
count).  If no rule's effective count decreases, every kept record stays
kept; in particular increasing any one in-range count while holding the
others fixed only moves records from `delete` to `keep`. -/
theorem claim_C6_amended (p q : RetentionPolicy) (snaps : List SnapshotMetadata)
    (hh : effCount p.hourly ≤ effCount q.hourly)
    (hd : effCount p.daily ≤ effCount q.daily)
    (hw : effCount p.weekly ≤ effCount q.weekly)
    (hm : effCount p.monthly ≤ effCount q.monthly)
    (hy : effYearly p ≤ effYearly q)
    (s : SnapshotMetadata) (hs : s ∈ (check_age p snaps).keep) :
    s ∈ (check_age q snaps).keep := by
  rw [mem_keep_iff] at hs ⊢
  obtain ⟨hmem, hsel⟩ := hs
  refine ⟨hmem, ?_⟩
  rcases hsel with ⟨hpos, h⟩ | ⟨hpos, h⟩ | ⟨hpos, h⟩ | ⟨hpos, h⟩ | ⟨hpos, h⟩
  · exact Or.inl ⟨by omega, runHeads_mono _ _ _ _ _ hh s h⟩
  · exact Or.inr (Or.inl ⟨by omega, runHeads_mono _ _ _ _ _ hd s h⟩)
  · exact Or.inr (Or.inr (Or.inl ⟨by omega, runHeads_mono _ _ _ _ _ hw s h⟩))
  · exact Or.inr (Or.inr (Or.inr (Or.inl
      ⟨by omega, runHeads_mono _ _ _ _ _ hm s h⟩)))
  · exact Or.inr (Or.inr (Or.inr (Or.inr
      ⟨by omega, runHeads_mono _ _ _ _ _ hy s h⟩)))

/-- Witness for `claim_C6_amended` at a concrete instance: raising the
daily count from 1 to 2 keeps the snapshot kept. -/
theorem claim_C6_witness :
    effCount (some 1) ≤ effCount (some 2) ∧
    (⟨String.data "a@1", 0, 0⟩ : SnapshotMetadata) ∈
      (check_age ⟨none, none, none, some 1, none⟩
        [⟨String.data "a@1", 0, 0⟩]).keep ∧
    (⟨String.data "a@1", 0, 0⟩ : SnapshotMetadata) ∈
      (check_age ⟨none, none, none, some 2, none⟩
        [⟨String.data "a@1", 0, 0⟩]).keep :=
  ⟨by decide, by decide,
    claim_C6_amended ⟨none, none, none, some 1, none⟩
      ⟨none, none, none, some 2, none⟩ [⟨String.data "a@1", 0, 0⟩]
      (by decide) (by decide) (by decide) (by decide) (by decide)
      ⟨String.data "a@1", 0, 0⟩ (by decide)⟩

/-! ## Claims C3, C4 (the policy parsers) and C9 (the destroy guard) -/

/-- Claim C3 is contradicted by the code: both parsers can panic.  The
library parser (`src/lib.rs`) slices the input at a *character* index
obtained from `chars().enumerate()` used as a *byte* index; on
`"ééy1"` the slice start (byte 3) falls inside the second two-byte
character, a panic in Rust (modelled as `none`).  The binary's regex
parser (`src/main.rs`) calls `value.parse::<u32>().unwrap()`, which
panics on an out-of-range count such as `"h4294967296"`. -/
theorem claim_C3_parser_panics :
    from_str (String.data "ééy1") = none ∧
    from_str_main (String.data "h4294967296") = none := by
  refine ⟨by decide, by decide⟩

/-- Claim C4, counterexample (library parser, `src/lib.rs`).  In
`"y1y"` the second `y` is followed by zero digits; the claim says it
contributes nothing and in particular cannot disturb the value set by
`"y1"`.  But the source assigns
`policy.yearly = digits_from(i+1, x).parse().ok()` unconditionally at
every marker, so the bare trailing `y` *resets* `yearly` to unset. -/
theorem claim_C4_counterexample :
    from_str (String.data "y1y") = some ⟨none, none, none, none, none⟩ ∧
    from_str (String.data "y1") = some ⟨some 1, none, none, none, none⟩ ∧
    from_str (String.data "y1y") ≠ from_str (String.data "y1") := by
  refine ⟨by decide, by decide, by decide⟩

/-- An all-ASCII string (each character is one UTF-8 byte), the domain on
which the library parser is panic-free. -/
def isAsciiStr (l : List Char) : Prop := ∀ c ∈ l, c.utf8Size = 1

instance : DecidablePred isAsciiStr := fun l =>
  inferInstanceAs (Decidable (∀ c ∈ l, c.utf8Size = 1))

/-- The value contributed by the last occurrence of marker `c` in the
suffix `l` of the enumerated character list: `dflt` when `c` does not
occur in `l`, otherwise the parse of the digits following the last
occurrence (which is `none` for a bare marker). -/
def lastOccValFrom {β : Type} (x : List Char) (l : List (Nat × Char))
    (c : Char) (parse : List Char → Option β) (dflt : Option β) : Option β :=
  match (l.filter (fun q => decide (q.2 = c))).getLast? with
  | none => dflt
  | some q => parse ((x.drop (q.1 + 1)).takeWhile (fun ch => ch.isDigit))

/-- The field value determined by the last occurrence of marker `c` in
`x` (unset when `c` never occurs). -/
def lastOccVal {β : Type} (x : List Char) (c : Char)
    (parse : List Char → Option β) : Option β :=
  lastOccValFrom x (enumChars 0 x) c parse none

lemma lastOccValFrom_cons_hit {β : Type} (x : List Char)
    (l : List (Nat × Char)) (i : Nat) (c : Char)
    (parse : List Char → Option β) (dflt : Option β) :
    lastOccValFrom x ((i, c) :: l) c parse dflt =
      lastOccValFrom x l c parse
        (parse ((x.drop (i + 1)).takeWhile (fun ch => ch.isDigit))) := by
  unfold lastOccValFrom
  rcases hfl : l.filter (fun q => decide (q.2 = c)) with _ | ⟨q, t⟩
  · rw [List.filter_cons_of_pos (by simp), hfl]
    rfl
  · rw [List.filter_cons_of_pos (by simp), hfl, List.getLast?_cons_cons]
    rcases hg : (q :: t).getLast? with _ | q'
    · exact absurd hg (by simp)
    · rfl

lemma lastOccValFrom_cons_miss {β : Type} (x : List Char)
    (l : List (Nat × Char)) (i : Nat) (c' c : Char)
    (parse : List Char → Option β) (dflt : Option β) (h : c' ≠ c) :
    lastOccValFrom x ((i, c') :: l) c parse dflt =
      lastOccValFrom x l c parse dflt := by
  unfold lastOccValFrom
  rw [List.filter_cons_of_neg (by simp [h])]

lemma enumChars_bound :
    ∀ (l : List Char) (st : Nat) (q : Nat × Char),
      q ∈ enumChars st l → q.1 < st + l.length
  | [], _, _, h => absurd h (List.not_mem_nil _)
  | c :: cs, st, q, h => by
    rw [enumChars] at h
    rcases List.mem_cons.mp h with rfl | h
    · simp
    · have := enumChars_bound cs (st + 1) q h
      simp only [List.length_cons]
      omega

lemma byteSlice_ascii :
    ∀ (l : List Char) (b : Nat), (∀ c ∈ l, c.utf8Size = 1) →
      byteSlice l b = if b ≤ l.length then some (l.drop b) else none
  | l, 0, _ => by simp [byteSlice]
  | [], b + 1, _ => by simp [byteSlice]
  | c :: rest, b + 1, h => by
    rw [byteSlice]
    have hc : c.utf8Size = 1 := h c (List.mem_cons_self _ _)
    rw [hc, if_pos (by omega)]
    have hrec := byteSlice_ascii rest (b + 1 - 1)
      (fun d hd => h d (List.mem_cons_of_mem _ hd))
    simp only [Nat.add_sub_cancel] at hrec ⊢
    rw [hrec]
    by_cases hb : b ≤ rest.length
    · rw [if_pos hb, if_pos (by simp [List.length_cons]; omega)]
      rw [List.drop_succ_cons]
    · rw [if_neg hb, if_neg (by simp [List.length_cons]; omega)]

lemma digits_from_ascii (x : List Char) (hx : isAsciiStr x) (start : Nat)
    (h : start ≤ x.length) :
    digits_from start x =
      some ((x.drop start).takeWhile (fun c => c.isDigit)) := by
  unfold digits_from
  rw [byteSlice_ascii x start hx, if_pos h]
  rfl

/-- On all-ASCII input the character loop of the library parser computes,
for each of the five fields, exactly the value of the last occurrence of
its marker (starting from the current policy's value). -/
lemma fromStrGo_eq (x : List Char) (hx : isAsciiStr x) :
    ∀ (l : List (Nat × Char)) (p : RetentionPolicy),
      (∀ q ∈ l, q.1 < x.length) →
      fromStrGo x l p = some
        ⟨lastOccValFrom x l 'y' parseI32 p.yearly,
         lastOccValFrom x l 'm' parseU32 p.monthly,
         lastOccValFrom x l 'w' parseU32 p.weekly,
         lastOccValFrom x l 'd' parseU32 p.daily,
         lastOccValFrom x l 'h' parseU32 p.hourly⟩
  | [], p, _ => by simp [fromStrGo, lastOccValFrom]
  | (i, ch) :: rest, p, hb => by
    have hi : i + 1 ≤ x.length := by
      have := hb (i, ch) (List.mem_cons_self _ _)
      omega
    have hrest : ∀ q ∈ rest, q.1 < x.length :=
      fun q hq => hb q (List.mem_cons_of_mem _ hq)
    by_cases hy : ch = 'y'
    · subst hy
      rw [fromStrGo, if_pos rfl, digits_from_ascii x hx (i + 1) hi,
        Option.some_bind, fromStrGo_eq x hx rest _ hrest]
      simp only [Option.some.injEq, RetentionPolicy.mk.injEq]
      exact ⟨(lastOccValFrom_cons_hit x rest i 'y' parseI32 p.yearly).symm,
        (lastOccValFrom_cons_miss x rest i 'y' 'm' parseU32 p.monthly
          (by decide)).symm,
        (lastOccValFrom_cons_miss x rest i 'y' 'w' parseU32 p.weekly
          (by decide)).symm,
        (lastOccValFrom_cons_miss x rest i 'y' 'd' parseU32 p.daily
          (by decide)).symm,
        (lastOccValFrom_cons_miss x rest i 'y' 'h' parseU32 p.hourly
          (by decide)).symm⟩
    · by_cases hm : ch = 'm'
      · subst hm
        rw [fromStrGo, if_neg (by decide), if_pos rfl,
          digits_from_ascii x hx (i + 1) hi, Option.some_bind,
          fromStrGo_eq x hx rest _ hrest]
        simp only [Option.some.injEq, RetentionPolicy.mk.injEq]
        exact ⟨(lastOccValFrom_cons_miss x rest i 'm' 'y' parseI32 p.yearly
            (by decide)).symm,
          (lastOccValFrom_cons_hit x rest i 'm' parseU32 p.monthly).symm,
          (lastOccValFrom_cons_miss x rest i 'm' 'w' parseU32 p.weekly
            (by decide)).symm,
          (lastOccValFrom_cons_miss x rest i 'm' 'd' parseU32 p.daily
            (by decide)).symm,
          (lastOccValFrom_cons_miss x rest i 'm' 'h' parseU32 p.hourly
            (by decide)).symm⟩
      · by_cases hw : ch = 'w'
        · subst hw
          rw [fromStrGo, if_neg (by decide), if_neg (by decide), if_pos rfl,
            digits_from_ascii x hx (i + 1) hi, Option.some_bind,
            fromStrGo_eq x hx rest _ hrest]
          simp only [Option.some.injEq, RetentionPolicy.mk.injEq]
          exact ⟨(lastOccValFrom_cons_miss x rest i 'w' 'y' parseI32 p.yearly
              (by decide)).symm,
            (lastOccValFrom_cons_miss x rest i 'w' 'm' parseU32 p.monthly
              (by decide)).symm,
            (lastOccValFrom_cons_hit x rest i 'w' parseU32 p.weekly).symm,
            (lastOccValFrom_cons_miss x rest i 'w' 'd' parseU32 p.daily
              (by decide)).symm,
            (lastOccValFrom_cons_miss x rest i 'w' 'h' parseU32 p.hourly
              (by decide)).symm⟩
        · by_cases hd : ch = 'd'
          · subst hd
            rw [fromStrGo, if_neg (by decide), if_neg (by decide),
              if_neg (by decide), if_pos rfl,
              digits_from_ascii x hx (i + 1) hi, Option.some_bind,
              fromStrGo_eq x hx rest _ hrest]
            simp only [Option.some.injEq, RetentionPolicy.mk.injEq]
            exact ⟨(lastOccValFrom_cons_miss x rest i 'd' 'y' parseI32 p.yearly
                (by decide)).symm,
              (lastOccValFrom_cons_miss x rest i 'd' 'm' parseU32 p.monthly
                (by decide)).symm,
              (lastOccValFrom_cons_miss x rest i 'd' 'w' parseU32 p.weekly
                (by decide)).symm,
              (lastOccValFrom_cons_hit x rest i 'd' parseU32 p.daily).symm,
              (lastOccValFrom_cons_miss x rest i 'd' 'h' parseU32 p.hourly
                (by decide)).symm⟩
          · by_cases hh : ch = 'h'
            · subst hh
              rw [fromStrGo, if_neg (by decide), if_neg (by decide),
                if_neg (by decide), if_neg (by decide), if_pos rfl,
                digits_from_ascii x hx (i + 1) hi, Option.some_bind,
                fromStrGo_eq x hx rest _ hrest]
              simp only [Option.some.injEq, RetentionPolicy.mk.injEq]
              exact ⟨(lastOccValFrom_cons_miss x rest i 'h' 'y' parseI32
                  p.yearly (by decide)).symm,
                (lastOccValFrom_cons_miss x rest i 'h' 'm' parseU32 p.monthly
                  (by decide)).symm,
                (lastOccValFrom_cons_miss x rest i 'h' 'w' parseU32 p.weekly
                  (by decide)).symm,
                (lastOccValFrom_cons_miss x rest i 'h' 'd' parseU32 p.daily
                  (by decide)).symm,
                (lastOccValFrom_cons_hit x rest i 'h' parseU32 p.hourly).symm⟩
            · rw [fromStrGo, if_neg hy, if_neg hm, if_neg hw, if_neg hd,
                if_neg hh, fromStrGo_eq x hx rest p hrest]
              simp only [Option.some.injEq, RetentionPolicy.mk.injEq]
              exact ⟨(lastOccValFrom_cons_miss x rest i ch 'y' parseI32
                  p.yearly hy).symm,
                (lastOccValFrom_cons_miss x rest i ch 'm' parseU32 p.monthly
                  hm).symm,
                (lastOccValFrom_cons_miss x rest i ch 'w' parseU32 p.weekly
                  hw).symm,
                (lastOccValFrom_cons_miss x rest i ch 'd' parseU32 p.daily
                  hd).symm,
                (lastOccValFrom_cons_miss x rest i ch 'h' parseU32 p.hourly
                  hh).symm⟩

/-- Claim C4, amended (library parser, ASCII inputs — on non-ASCII inputs
the parser can panic, see C3).  Every character that is not one of the
five marker letters contributes nothing; each policy field is determined
solely by the LAST occurrence of its marker: it is the parse of the
digits immediately following that occurrence, which is *unset* when that
occurrence has zero digits (or an out-of-range count) — a bare marker
thus resets the field rather than leaving an earlier value intact.  A
marker that never occurs leaves its field unset. -/
theorem claim_C4_amended (x : List Char) (hx : isAsciiStr x) :
    from_str x = some
      ⟨lastOccVal x 'y' parseI32,
       lastOccVal x 'm' parseU32,
       lastOccVal x 'w' parseU32,
       lastOccVal x 'd' parseU32,
       lastOccVal x 'h' parseU32⟩ := by
  unfold from_str lastOccVal
  exact fromStrGo_eq x hx (enumChars 0 x) _
    (fun q hq => by simpa using enumChars_bound x 0 q hq)

/-- Witness for `claim_C4_amended` on the repository's own test string
`"y1d88a1b2c3m5"`: the hypothesis is discharged by computation and the
characterization agrees with the concrete parse. -/
theorem claim_C4_witness :
    isAsciiStr (String.data "y1d88a1b2c3m5") ∧
    from_str (String.data "y1d88a1b2c3m5") = some
      ⟨lastOccVal (String.data "y1d88a1b2c3m5") 'y' parseI32,
       lastOccVal (String.data "y1d88a1b2c3m5") 'm' parseU32,
       lastOccVal (String.data "y1d88a1b2c3m5") 'w' parseU32,
       lastOccVal (String.data "y1d88a1b2c3m5") 'd' parseU32,
       lastOccVal (String.data "y1d88a1b2c3m5") 'h' parseU32⟩ ∧
    lastOccVal (String.data "y1d88a1b2c3m5") 'y' parseI32 = some 1 ∧
    lastOccVal (String.data "y1d88a1b2c3m5") 'w' parseU32 = none :=
  ⟨by decide, claim_C4_amended (String.data "y1d88a1b2c3m5") (by decide),
    by decide, by decide⟩

/-- Claim C9: `destroy_snapshot` (`src/zfs.rs:98-107`) refuses, with the
distinct error message, any identifier lacking the `@` separator and
issues no destructive call; with the separator present it issues exactly
`zfs destroy <name>`. -/
theorem claim_C9_destroy_guard (s : SnapshotMetadata) :
    ('@' ∈ s.name →
      destroy_snapshot s = Except.ok (ZfsCall.destroy s.name)) ∧
    ('@' ∉ s.name →
      destroy_snapshot s = Except.error notASnapshotMsg) := by
  constructor
  · intro h
    simp [destroy_snapshot, h]
  · intro h
    simp [destroy_snapshot, h]

/-- Witness for `claim_C9_destroy_guard`: a snapshot name is destroyed,
a bare dataset name is refused. -/
theorem claim_C9_witness :
    destroy_snapshot ⟨String.data "tank/data@2021-10-02-autosnap", 0, 0⟩ =
      Except.ok (ZfsCall.destroy (String.data "tank/data@2021-10-02-autosnap")) ∧
    destroy_snapshot ⟨String.data "tank/data", 0, 0⟩ =
      Except.error notASnapshotMsg :=
  ⟨(claim_C9_destroy_guard ⟨String.data "tank/data@2021-10-02-autosnap", 0, 0⟩).1
      (by decide),
    (claim_C9_destroy_guard ⟨String.data "tank/data", 0, 0⟩).2 (by decide)⟩

/-! ## Claims C7 and C8 (the aggregator) -/

/-- Look up the group of key `k` in the association list ( `[]` when
absent — groups are never empty, so this is unambiguous). -/
def findGroup :
    List (List Char × List SnapshotMetadata) → List Char →
      List SnapshotMetadata
  | [], _ => []
  | (k', g) :: rest, k => if k' = k then g else findGroup rest k

def keysOf (m : List (List Char × List SnapshotMetadata)) : List (List Char) :=
  m.map Prod.fst

lemma findGroup_addToGroup (m : List (List Char × List SnapshotMetadata))
    (k2 : List Char) (s : SnapshotMetadata) (k : List Char) :
    findGroup (addToGroup m k2 s) k =
      findGroup m k ++ (if k2 = k then [s] else []) := by
  induction m with
  | nil =>
    simp only [addToGroup, findGroup]
    by_cases h : k2 = k <;> simp [h]
  | cons hd rest ih =>
    obtain ⟨k', g⟩ := hd
    rw [addToGroup]
    by_cases h1 : k' = k2
    · rw [if_pos h1, findGroup, findGroup]
      by_cases h2 : k' = k
      · rw [if_pos h2, if_pos h2, if_pos (by rw [← h1, h2])]
      · rw [if_neg h2, if_neg h2, if_neg (by rw [← h1]; exact h2)]
        simp
    · rw [if_neg h1, findGroup, findGroup]
      by_cases h2 : k' = k
      · rw [if_pos h2, if_pos h2,
          if_neg (by rw [← h2]; exact fun hc => h1 hc.symm)]
        simp
      · rw [if_neg h2, if_neg h2, ih]

lemma findGroup_fold :
    ∀ (snaps : List SnapshotMetadata)
      (m : List (List Char × List SnapshotMetadata)) (k : List Char),
      findGroup
          (snaps.foldl (fun m s => addToGroup m (datasetOf s.name) s) m) k =
        findGroup m k ++
          snaps.filter (fun s => decide (datasetOf s.name = k))
  | [], m, k => by simp
  | s :: rest, m, k => by
    rw [List.foldl_cons, findGroup_fold rest _ k, findGroup_addToGroup,
      List.filter_cons]
    by_cases h : datasetOf s.name = k
    · simp [h, List.append_assoc]
    · simp [h]

lemma findGroup_groupBy (snaps : List SnapshotMetadata) (k : List Char) :
    findGroup (groupByDataset snaps) k =
      snaps.filter (fun s => decide (datasetOf s.name = k)) := by
  rw [groupByDataset, findGroup_fold snaps [] k]
  rfl

lemma keysOf_addToGroup (m : List (List Char × List SnapshotMetadata))
    (k : List Char) (s : SnapshotMetadata) :
    keysOf (addToGroup m k s) =
      if k ∈ keysOf m then keysOf m else keysOf m ++ [k] := by
  induction m with
  | nil => simp [addToGroup, keysOf]
  | cons hd rest ih =>
    obtain ⟨k', g⟩ := hd
    rw [addToGroup]
    by_cases h1 : k' = k
    · rw [if_pos h1]
      have hm : k ∈ keysOf ((k', g) :: rest) :=
        List.mem_cons.mpr (Or.inl h1.symm)
      rw [if_pos hm]
      rfl
    · rw [if_neg h1]
      have hcons : keysOf ((k', g) :: addToGroup rest k s) =
          k' :: keysOf (addToGroup rest k s) := rfl
      have hmem : k ∈ keysOf ((k', g) :: rest) ↔ k ∈ keysOf rest := by
        constructor
        · intro h
          rcases List.mem_cons.mp h with h | h
          · exact absurd h.symm h1
          · exact h
        · exact fun h => List.mem_cons_of_mem _ h
      rw [hcons, ih]
      by_cases h2 : k ∈ keysOf rest
      · rw [if_pos h2, if_pos (hmem.mpr h2)]
        rfl
      · rw [if_neg h2, if_neg (fun hc => h2 (hmem.mp hc))]
        rfl

lemma keysOf_groupBy_nodup (snaps : List SnapshotMetadata) :
    (keysOf (groupByDataset snaps)).Nodup := by
  suffices h : ∀ (l : List SnapshotMetadata)
      (m : List (List Char × List SnapshotMetadata)), (keysOf m).Nodup →
      (keysOf (l.foldl (fun m s => addToGroup m (datasetOf s.name) s) m)).Nodup by
    exact h snaps [] (by simp [keysOf])
  intro l
  induction l with
  | nil => intro m hm; exact hm
  | cons s rest ih =>
    intro m hm
    rw [List.foldl_cons]
    refine ih _ ?_
    rw [keysOf_addToGroup]
    by_cases h : datasetOf s.name ∈ keysOf m
    · rw [if_pos h]; exact hm
    · rw [if_neg h]
      simp [List.nodup_append, hm, h]

lemma findGroup_of_mem :
    ∀ (m : List (List Char × List SnapshotMetadata)),
      (keysOf m).Nodup →
      ∀ kg ∈ m, findGroup m kg.1 = kg.2
  | [], _, kg, h => absurd h (List.not_mem_nil _)
  | (k', g) :: rest, hnd, kg, h => by
    rcases List.mem_cons.mp h with rfl | h
    · rw [findGroup, if_pos rfl]
    · have hk : k' ≠ kg.1 := by
        intro hc
        have h1 : kg.1 ∈ keysOf rest := List.mem_map_of_mem Prod.fst h
        have h2 : k' ∉ keysOf rest := by
          have := hnd
          simp only [keysOf, List.map_cons, List.nodup_cons] at this
          exact this.1
        exact h2 (hc ▸ h1)
      rw [findGroup, if_neg hk]
      exact findGroup_of_mem rest
        (by simp only [keysOf, List.map_cons, List.nodup_cons] at hnd ⊢
            exact hnd.2) kg h

lemma mem_groupBy_eq_filter (snaps : List SnapshotMetadata)
    {kg : List Char × List SnapshotMetadata} (h : kg ∈ groupByDataset snaps) :
    kg.2 = snaps.filter (fun s => decide (datasetOf s.name = kg.1)) := by
  rw [← findGroup_groupBy snaps kg.1,
    findGroup_of_mem _ (keysOf_groupBy_nodup snaps) kg h]

lemma mem_of_findGroup_ne_nil :
    ∀ (m : List (List Char × List SnapshotMetadata)) (k : List Char),
      findGroup m k ≠ [] → (k, findGroup m k) ∈ m
  | [], k, h => absurd rfl h
  | (k', g) :: rest, k, h => by
    rw [findGroup] at h ⊢
    by_cases hk : k' = k
    · rw [if_pos hk] at h ⊢
      exact List.mem_cons.mpr (Or.inl (by rw [hk]))
    · rw [if_neg hk] at h ⊢
      exact List.mem_cons.mpr (Or.inr (mem_of_findGroup_ne_nil rest k h))

/-- What a successful `gcLoop` run means: every group's policy lookup and
parse succeeded, and the accumulated keep/delete lists are exactly the
per-group engine outputs, membership-wise. -/
lemma gcLoop_some (props : List Char → Option (List Char)) :
    ∀ (m : List (List Char × List SnapshotMetadata))
      (K D : List SnapshotMetadata),
      gcLoop props m = some (K, D) →
      (∀ kg ∈ m, ∃ pol, (props kg.1).bind from_str_main = some pol) ∧
      (∀ s : SnapshotMetadata,
        (s ∈ K ↔ ∃ kg ∈ m, ∃ pol,
          (props kg.1).bind from_str_main = some pol ∧
            s ∈ (check_age pol kg.2).keep) ∧
        (s ∈ D ↔ ∃ kg ∈ m, ∃ pol,
          (props kg.1).bind from_str_main = some pol ∧
            s ∈ (check_age pol kg.2).delete))
  | [], K, D, h => by
    rw [gcLoop] at h
    obtain ⟨rfl, rfl⟩ : K = [] ∧ D = [] := by
      simpa [eq_comm, And.comm] using h
    refine ⟨fun kg hkg => absurd hkg (List.not_mem_nil _), fun s => ?_⟩
    simp
  | (k, g) :: rest, K, D, h => by
    rw [gcLoop] at h
    rcases hp : props k with _ | pstr
    · rw [hp, Option.none_bind] at h
      simp at h
    · rw [hp, Option.some_bind] at h
      rcases hf : from_str_main pstr with _ | pol
      · rw [hf, Option.none_bind] at h
        simp at h
      · rw [hf, Option.some_bind] at h
        rcases hloop : gcLoop props rest with _ | kd
        · rw [hloop] at h
          simp at h
        · obtain ⟨ks, ds⟩ := kd
          rw [hloop] at h
          simp only [Option.map_some', Option.some.injEq, Prod.mk.injEq] at h
          obtain ⟨rfl, rfl⟩ := h
          obtain ⟨ihprops, ihmem⟩ := gcLoop_some props rest ks ds hloop
          have hbind : (props k).bind from_str_main = some pol := by
            rw [hp, Option.some_bind, hf]
          constructor
          · intro kg hkg
            rcases List.mem_cons.mp hkg with rfl | hkg
            · exact ⟨pol, hbind⟩
            · exact ihprops kg hkg
          · intro s
            have hmk := (ihmem s).1
            have hmd := (ihmem s).2
            constructor
            · rw [List.mem_append, hmk]
              constructor
              · rintro (hke | ⟨kg, hkg, pol', h1, h2⟩)
                · exact ⟨(k, g), List.mem_cons_self _ _, pol, hbind, hke⟩
                · exact ⟨kg, List.mem_cons_of_mem _ hkg, pol', h1, h2⟩
              · rintro ⟨kg, hkg, pol', h1, h2⟩
                rcases List.mem_cons.mp hkg with rfl | hkg
                · have : pol' = pol := by
                    rw [hbind] at h1
                    exact (Option.some.inj h1).symm
                  rw [this] at h2
                  exact Or.inl h2
                · exact Or.inr ⟨kg, hkg, pol', h1, h2⟩
            · rw [List.mem_append, hmd]
              constructor
              · rintro (hke | ⟨kg, hkg, pol', h1, h2⟩)
                · exact ⟨(k, g), List.mem_cons_self _ _, pol, hbind, hke⟩
                · exact ⟨kg, List.mem_cons_of_mem _ hkg, pol', h1, h2⟩
              · rintro ⟨kg, hkg, pol', h1, h2⟩
                rcases List.mem_cons.mp hkg with rfl | hkg
                · have : pol' = pol := by
                    rw [hbind] at h1
                    exact (Option.some.inj h1).symm
                  rw [this] at h2
                  exact Or.inl h2
                · exact Or.inr ⟨kg, hkg, pol', h1, h2⟩

/-- Every listed snapshot's own dataset group is an entry of the grouping
map. -/
lemma group_entry_of_mem {snaps : List SnapshotMetadata}
    {s : SnapshotMetadata} (hs : s ∈ snaps) :
    (datasetOf s.name,
        snaps.filter (fun t => decide (datasetOf t.name = datasetOf s.name))) ∈
      groupByDataset snaps := by
  have hsf : s ∈ snaps.filter
      (fun t => decide (datasetOf t.name = datasetOf s.name)) :=
    List.mem_filter.mpr ⟨hs, by simp⟩
  have hfg := findGroup_groupBy snaps (datasetOf s.name)
  have hne := mem_of_findGroup_ne_nil (groupByDataset snaps)
    (datasetOf s.name) (by rw [hfg]; exact List.ne_nil_of_mem hsf)
  rw [hfg] at hne
  exact hne

/-- Claim C7: multi-dataset isolation.  Whenever `gc_find` succeeds on a
combined snapshot set, each record's keep/delete classification equals
the classification `check_age` produces on that record's own dataset
group (the sublist of snapshots whose identifier has the same prefix
before the first `@`), under that dataset's own parsed policy; snapshots
of other datasets have no influence. -/
theorem claim_C7_isolation (props : List Char → Option (List Char))
    (snaps : List SnapshotMetadata) (r : AgeCheckResult)
    (h : gc_find props snaps = some r) (s : SnapshotMetadata)
    (hs : s ∈ snaps) :
    ∃ pol, (props (datasetOf s.name)).bind from_str_main = some pol ∧
      (s ∈ r.keep ↔ s ∈ (check_age pol
        (snaps.filter
          (fun t => decide (datasetOf t.name = datasetOf s.name)))).keep) ∧
      (s ∈ r.delete ↔ s ∈ (check_age pol
        (snaps.filter
          (fun t => decide (datasetOf t.name = datasetOf s.name)))).delete) := by
  rcases hloop : gcLoop props (groupByDataset snaps) with _ | kd
  · rw [gc_find, hloop] at h
    simp at h
  · obtain ⟨K, D⟩ := kd
    rw [gc_find, hloop] at h
    simp only [Option.map_some', Option.some.injEq] at h
    subst h
    have hmem := group_entry_of_mem hs
    obtain ⟨hprops, hmemiff⟩ := gcLoop_some props (groupByDataset snaps) K D hloop
    obtain ⟨pol, hpol⟩ := hprops _ hmem
    refine ⟨pol, hpol, ?_, ?_⟩
    · show s ∈ K ↔ _
      rw [(hmemiff s).1]
      constructor
      · rintro ⟨kg, hkg, pol', h1, h2⟩
        have hsg : s ∈ kg.2 := mem_of_mem_keep h2
        have hfilter := mem_groupBy_eq_filter snaps hkg
        have hdk : datasetOf s.name = kg.1 := by
          rw [hfilter] at hsg
          simpa using (List.mem_filter.mp hsg).2
        have hg2 : kg.2 = snaps.filter
            (fun t => decide (datasetOf t.name = datasetOf s.name)) := by
          rw [hfilter, ← hdk]
        have hpe : pol' = pol := by
          rw [hdk] at hpol
          rw [hpol] at h1
          exact (Option.some.inj h1).symm
        rw [← hpe, ← hg2]
        exact h2
      · intro h2
        exact ⟨(datasetOf s.name, snaps.filter
          (fun t => decide (datasetOf t.name = datasetOf s.name))),
          hmem, pol, hpol, h2⟩
    · show s ∈ D ↔ _
      rw [(hmemiff s).2]
      constructor
      · rintro ⟨kg, hkg, pol', h1, h2⟩
        have hsg : s ∈ kg.2 := mem_of_mem_delete h2
        have hfilter := mem_groupBy_eq_filter snaps hkg
        have hdk : datasetOf s.name = kg.1 := by
          rw [hfilter] at hsg
          simpa using (List.mem_filter.mp hsg).2
        have hg2 : kg.2 = snaps.filter
            (fun t => decide (datasetOf t.name = datasetOf s.name)) := by
          rw [hfilter, ← hdk]
        have hpe : pol' = pol := by
          rw [hdk] at hpol
          rw [hpol] at h1
          exact (Option.some.inj h1).symm
        rw [← hpe, ← hg2]
        exact h2
      · intro h2
        exact ⟨(datasetOf s.name, snaps.filter
          (fun t => decide (datasetOf t.name = datasetOf s.name))),
          hmem, pol, hpol, h2⟩

/-- A concrete two-dataset fixture for the aggregator: dataset `a` keeps
one hourly generation, dataset `b` retains nothing. -/
def egProps : List Char → Option (List Char) := fun k =>
  if k = String.data "a" then some (String.data "h1")
  else if k = String.data "b" then some (String.data "") else none

def egA : SnapshotMetadata := ⟨String.data "a@1", 0, 0⟩

def egB : SnapshotMetadata := ⟨String.data "b@1", 0, 0⟩

def egSnaps : List SnapshotMetadata := [egA, egB]

def egResult : AgeCheckResult := ⟨[egA], [egB]⟩

/-- Witness for `claim_C7_isolation` on the two-dataset fixture. -/
theorem claim_C7_witness :
    gc_find egProps egSnaps = some egResult ∧ egA ∈ egSnaps ∧
    ∃ pol, (egProps (datasetOf egA.name)).bind from_str_main = some pol ∧
      (egA ∈ egResult.keep ↔ egA ∈ (check_age pol
        (egSnaps.filter
          (fun t => decide (datasetOf t.name = datasetOf egA.name)))).keep) ∧
      (egA ∈ egResult.delete ↔ egA ∈ (check_age pol
        (egSnaps.filter
          (fun t => decide (datasetOf t.name = datasetOf egA.name)))).delete) :=
  ⟨by decide, by decide,
    claim_C7_isolation egProps egSnaps egResult (by decide) egA (by decide)⟩

/-- Claim C8: fail-fast aggregation.  If the policy property lookup fails
for the dataset of any listed snapshot, `gc_find` returns an error —
no partial keep/delete decision of any kind is produced. -/
theorem claim_C8_fail_fast (props : List Char → Option (List Char))
    (snaps : List SnapshotMetadata) (s : SnapshotMetadata) (hs : s ∈ snaps)
    (hfail : props (datasetOf s.name) = none) :
    gc_find props snaps = none := by
  rcases hloop : gcLoop props (groupByDataset snaps) with _ | kd
  · rw [gc_find, hloop]
    rfl
  · exfalso
    obtain ⟨K, D⟩ := kd
    obtain ⟨hprops, -⟩ := gcLoop_some props (groupByDataset snaps) K D hloop
    obtain ⟨pol, hpol⟩ := hprops _ (group_entry_of_mem hs)
    rw [hfail] at hpol
    simp at hpol

/-- Witness for `claim_C8_fail_fast`: a lookup oracle that always fails
aborts the aggregation of a one-snapshot set. -/
theorem claim_C8_witness :
    (⟨String.data "a@1", 0, 0⟩ : SnapshotMetadata) ∈
        ([⟨String.data "a@1", 0, 0⟩] : List SnapshotMetadata) ∧
    (fun _ : List Char => (none : Option (List Char)))
        (datasetOf (String.data "a@1")) = none ∧
    gc_find (fun _ => none) [⟨String.data "a@1", 0, 0⟩] = none :=
  ⟨by decide, rfl,
    claim_C8_fail_fast (fun _ => none) [⟨String.data "a@1", 0, 0⟩]
      ⟨String.data "a@1", 0, 0⟩ (by decide) rfl⟩

end ZfsAutosnap
